import Mathlib

/-!
Verification of the portfolio analytics engine of
controllers/portfolio_study_controller.py (BNB Portfolio Manager).

The engine works on long-format frames of per-stock daily metric rows.
We embed a frame as a list of rows; each pandas operation used by the
controller (unstack, asfreq, ffill, groupby-sum, diff, fillna-add,
max, filter-count) is translated into an explicit list function below.
Dates are modelled as natural numbers (day indices); metric values as
rationals.
-/

/-- One row of the final_metrics table for one stock on one date, with the
columns the controller queries.  Unused columns default to 0. -/
structure MetricsRow where
  date : Nat
  stock : String
  market_value : ℚ := 0
  total_return : ℚ := 0
  daily_pl : ℚ := 0
  daily_pl_pct : ℚ := 0
  total_return_pct : ℚ := 0
  cumulative_return_pct : ℚ := 0
  cash_dividend : ℚ := 0
  cash_dividends_total : ℚ := 0
  drp_share : ℚ := 0
  drp_shares_total : ℚ := 0
  close_price : ℚ := 0
deriving DecidableEq, Repr

/-- Cell lookup of a pivoted (unstacked) frame: the value of column col at
(date d, stock s), or none when the frame has no row for that pair
(pandas NaN). -/
def lookupCol (col : MetricsRow → ℚ) (f : List MetricsRow) (d : Nat) (s : String) :
    Option ℚ :=
  (f.find? fun r => r.date == d && r.stock == s).map col

/-- Forward-filled cell after reindexing to a daily calendar
(asfreq plus ffill): the value of col for stock s at the most recent
date at or before d that has a row, or none when no such row exists. -/
def lastObsLE (col : MetricsRow → ℚ) (f : List MetricsRow) (s : String) :
    Nat → Option ℚ
  | 0 => lookupCol col f 0 s
  | Nat.succ d =>
      match lookupCol col f (d + 1) s with
      | some v => some v
      | none => lastObsLE col f s d

/-- Order-preserving deduplication with an accumulator of already seen
keys; dedupFirstAux [] mirrors dict.fromkeys (keep the first occurrence). -/
def dedupFirstAux (seen : List String) : List String → List String
  | [] => []
  | x :: xs =>
      if x ∈ seen then dedupFirstAux seen xs
      else x :: dedupFirstAux (x :: seen) xs

/-- Stock columns of the unstacked frame, first-seen order. -/
def stocksOf (f : List MetricsRow) : List String :=
  dedupFirstAux [] (f.map (·.stock))

/-- Distinct dates of the frame, first-seen order (the groupby keys). -/
def datesOfAux (seen : List Nat) : List Nat → List Nat
  | [] => []
  | x :: xs =>
      if x ∈ seen then datesOfAux seen xs
      else x :: datesOfAux (x :: seen) xs

/-- Distinct dates appearing in the frame. -/
def datesOf (f : List MetricsRow) : List Nat :=
  datesOfAux [] (f.map (·.date))

/-- Smallest date of the frame (0 for an empty frame). -/
def minDate (f : List MetricsRow) : Nat :=
  match f with
  | [] => 0
  | r :: rs => rs.foldl (fun m r2 => min m r2.date) r.date

/-- Largest date of the frame (0 for an empty frame). -/
def maxDate (f : List MetricsRow) : Nat :=
  match f with
  | [] => 0
  | r :: rs => rs.foldl (fun m r2 => max m r2.date) r.date

/-- The contiguous daily calendar produced by asfreq: every day from
minDate to maxDate inclusive. -/
def alignDates (f : List MetricsRow) : List Nat :=
  List.range' (minDate f) (maxDate f - minDate f + 1)

/-- Per-date sum of a column over the raw rows (groupby date then sum). -/
def sumRowsAt (col : MetricsRow → ℚ) (f : List MetricsRow) (d : Nat) : ℚ :=
  ((f.filter fun r => r.date == d).map col).sum

/-- Sum across stock columns of the raw pivoted cells at date d, missing
cells contributing 0 (pandas row sum skipping NaN). -/
def sumStocksAt (col : MetricsRow → ℚ) (f : List MetricsRow) (d : Nat) : ℚ :=
  ((stocksOf f).map fun s => (lookupCol col f d s).getD 0).sum

/-- Sum across stock columns of the forward-filled cells at date d, cells
still unset (before a stock's first observation) contributing 0. -/
def sumFfillAt (col : MetricsRow → ℚ) (f : List MetricsRow) (d : Nat) : ℚ :=
  ((stocksOf f).map fun s => (lastObsLE col f s d).getD 0).sum

/-- The frame has no two rows for the same (date, stock) pair. -/
def nodupKeys (f : List MetricsRow) : Prop :=
  (f.map fun r => (r.date, r.stock)).Nodup

/-- Forward-filled market-value cell, as plot_market_value builds it. -/
def plot_market_value_cell (f : List MetricsRow) (s : String) (d : Nat) : Option ℚ :=
  lastObsLE MetricsRow.market_value f s d

/-- Per-day portfolio market-value total of plot_market_value
(sum over the forward-filled stock columns). -/
def plot_market_value_total (f : List MetricsRow) (d : Nat) : ℚ :=
  sumFfillAt MetricsRow.market_value f d

/-- Frame of the alignment scenario: stock A valued 100 and 110 on days
0 and 1, stock B valued 50 on day 0 only. -/
def exFrameC1 : List MetricsRow :=
  [ { date := 0, stock := "A", market_value := 100 },
    { date := 1, stock := "A", market_value := 110 },
    { date := 0, stock := "B", market_value := 50 } ]

-- Characterisation lemmas for the forward fill.

lemma lookupCol_eq_none_iff (col : MetricsRow → ℚ) (f : List MetricsRow)
    (d : Nat) (s : String) :
    lookupCol col f d s = none ↔ ∀ r ∈ f, ¬(r.date = d ∧ r.stock = s) := by
  unfold lookupCol
  simp [List.find?_eq_none]

lemma lastObsLE_eq_none_iff (col : MetricsRow → ℚ) (f : List MetricsRow)
    (s : String) (d : Nat) :
    lastObsLE col f s d = none ↔ ∀ e ≤ d, lookupCol col f e s = none := by
  induction d with
  | zero =>
      simp only [lastObsLE]
      constructor
      · intro h e he
        have : e = 0 := Nat.le_zero.mp he
        rw [this]; exact h
      · intro h
        exact h 0 (Nat.le_refl 0)
  | succ d ih =>
      simp only [lastObsLE]
      cases h : lookupCol col f (d + 1) s with
      | some v =>
          simp only [reduceCtorEq, false_iff]
          intro hall
          have := hall (d + 1) (Nat.le_refl _)
          rw [h] at this
          exact Option.noConfusion this
      | none =>
          rw [ih]
          constructor
          · intro hall e he
            rcases Nat.lt_or_ge e (d + 1) with h1 | h1
            · exact hall e (Nat.lt_succ_iff.mp h1)
            · have : e = d + 1 := Nat.le_antisymm he h1
              rw [this]; exact h
          · intro hall e he
            exact hall e (Nat.le_succ_of_le he)

lemma lastObsLE_eq_some_iff (col : MetricsRow → ℚ) (f : List MetricsRow)
    (s : String) (d : Nat) (v : ℚ) :
    lastObsLE col f s d = some v ↔
      ∃ e ≤ d, lookupCol col f e s = some v ∧
        ∀ e2, e < e2 → e2 ≤ d → lookupCol col f e2 s = none := by
  induction d with
  | zero =>
      simp only [lastObsLE]
      constructor
      · intro h
        exact ⟨0, Nat.le_refl 0, h, fun e2 h1 h2 => absurd (Nat.lt_of_lt_of_le h1 h2) (Nat.lt_irrefl 0)⟩
      · rintro ⟨e, he, hl, _⟩
        have : e = 0 := Nat.le_zero.mp he
        rw [this] at hl; exact hl
  | succ d ih =>
      simp only [lastObsLE]
      cases h : lookupCol col f (d + 1) s with
      | some w =>
          constructor
          · intro hv
            have hw : w = v := Option.some.inj hv
            exact ⟨d + 1, Nat.le_refl _, by rw [h, hw],
              fun e2 h1 h2 => absurd (Nat.lt_of_lt_of_le h1 h2) (Nat.lt_irrefl _)⟩
          · rintro ⟨e, he, hl, hnone⟩
            rcases Nat.lt_or_ge e (d + 1) with h1 | h1
            · have := hnone (d + 1) h1 (Nat.le_refl _)
              rw [h] at this
              exact Option.noConfusion this
            · have : e = d + 1 := Nat.le_antisymm he h1
              rw [this] at hl
              rw [h] at hl
              exact hl
      | none =>
          rw [ih]
          constructor
          · rintro ⟨e, he, hl, hnone⟩
            refine ⟨e, Nat.le_succ_of_le he, hl, fun e2 h1 h2 => ?_⟩
            rcases Nat.lt_or_ge e2 (d + 1) with h3 | h3
            · exact hnone e2 h1 (Nat.lt_succ_iff.mp h3)
            · have : e2 = d + 1 := Nat.le_antisymm h2 h3
              rw [this]; exact h
          · rintro ⟨e, he, hl, hnone⟩
            have he2 : e ≤ d := by
              rcases Nat.lt_or_ge e (d + 1) with h3 | h3
              · exact Nat.lt_succ_iff.mp h3
              · have : e = d + 1 := Nat.le_antisymm he h3
                rw [this] at hl
                rw [h] at hl
                exact Option.noConfusion hl
            exact ⟨e, he2, hl, fun e2 h1 h2 => hnone e2 h1 (Nat.le_succ_of_le h2)⟩

/-- C1: aligning pivots the frame to one column per stock over the daily
calendar from the minimum to the maximum date; a stock cell on day d holds
the most recent value observed on or before d and stays unset before the
stock's first observation; in the concrete scenario A equals [100,110],
B equals [50,50] and the daily portfolio totals are [150,160]. -/
theorem C1_time_alignment :
    (∀ f s d v, plot_market_value_cell f s d = some v ↔
      ∃ e ≤ d, lookupCol MetricsRow.market_value f e s = some v ∧
        ∀ e2, e < e2 → e2 ≤ d → lookupCol MetricsRow.market_value f e2 s = none) ∧
    (∀ f s d, plot_market_value_cell f s d = none ↔
      ∀ e ≤ d, lookupCol MetricsRow.market_value f e s = none) ∧
    (alignDates exFrameC1 = [0, 1] ∧
      plot_market_value_cell exFrameC1 "A" 0 = some 100 ∧
      plot_market_value_cell exFrameC1 "A" 1 = some 110 ∧
      plot_market_value_cell exFrameC1 "B" 0 = some 50 ∧
      plot_market_value_cell exFrameC1 "B" 1 = some 50 ∧
      plot_market_value_total exFrameC1 0 = 150 ∧
      plot_market_value_total exFrameC1 1 = 160) := by
  refine ⟨fun f s d v => lastObsLE_eq_some_iff _ f s d v,
          fun f s d => lastObsLE_eq_none_iff _ f s d, ?_⟩
  refine ⟨by decide, by decide, by decide, by decide, by decide, ?_, ?_⟩
  · simp [plot_market_value_total, sumFfillAt, stocksOf, dedupFirstAux, lastObsLE,
      lookupCol, exFrameC1, List.find?]
    norm_num
  · simp [plot_market_value_total, sumFfillAt, stocksOf, dedupFirstAux, lastObsLE,
      lookupCol, exFrameC1, List.find?]
    norm_num

-- Delta transform (calculate_deltas) --------------------------------------

/-- Tail of the pandas diff: each element minus its predecessor, prev
being the element just before this sublist. -/
def diffAux (prev : ℚ) : List ℚ → List (Option ℚ)
  | [] => []
  | y :: ys => some (y - prev) :: diffAux y ys

/-- pandas Series.diff: the first element has no prior value and becomes
missing (none); every later element is the strict difference against the
immediately preceding element. -/
def diffSeries : List ℚ → List (Option ℚ)
  | [] => []
  | x :: xs => none :: diffAux x xs

/-- calculate_deltas: per-stock diff of the base metric column when
view_type is individual_stocks, diff of the aggregated portfolio value
column otherwise. -/
def calculate_deltas (view_type : String)
    (perStock : List (String × List ℚ)) (portfolioValue : List ℚ) :
    List (String × List (Option ℚ)) ⊕ List (Option ℚ) :=
  if view_type == "individual_stocks" then
    Sum.inl (perStock.map fun p => (p.1, diffSeries p.2))
  else
    Sum.inr (diffSeries portfolioValue)

lemma diffAux_length (prev : ℚ) (xs : List ℚ) :
    (diffAux prev xs).length = xs.length := by
  induction xs generalizing prev with
  | nil => rfl
  | cons y ys ih => simp [diffAux, ih]

lemma diffAux_getElem (prev : ℚ) (t : List ℚ) (i : Nat) (a b : ℚ)
    (ha : (prev :: t)[i]? = some a) (hb : t[i]? = some b) :
    (diffAux prev t)[i]? = some (some (b - a)) := by
  induction t generalizing prev i with
  | nil => simp at hb
  | cons y ys ih =>
      cases i with
      | zero =>
          simp only [List.getElem?_cons_zero, Option.some.injEq] at ha hb
          simp [diffAux, ha, hb]
      | succ j =>
          simp only [List.getElem?_cons_succ] at ha hb
          simpa [diffAux] using ih y j ha hb

lemma diffAux_replicate (c : ℚ) (m : Nat) :
    diffAux c (List.replicate m c) = List.replicate m (some 0) := by
  induction m with
  | zero => rfl
  | succ k ih => simp [List.replicate, diffAux, ih]

/-- C3: calculate_deltas applies the strict-difference transform per
stock in individual view and to the aggregated series otherwise; the
first element of any series has a missing delta (the series keeps its
length, nothing is dropped), later deltas are the difference against the
immediately preceding element, a constant series of length at least one
yields all-zero computed deltas, and a length-1 series yields one missing
delta. -/
theorem C3_calculate_deltas :
    (∀ ps pv, calculate_deltas "individual_stocks" ps pv =
      Sum.inl (ps.map fun p => (p.1, diffSeries p.2))) ∧
    (∀ vt ps pv, vt ≠ "individual_stocks" →
      calculate_deltas vt ps pv = Sum.inr (diffSeries pv)) ∧
    (∀ xs, (diffSeries xs).length = xs.length) ∧
    (∀ x xs, (diffSeries (x :: xs)).head? = some none) ∧
    (∀ xs i a b, xs[i]? = some a → xs[i + 1]? = some b →
      (diffSeries xs)[i + 1]? = some (some (b - a))) ∧
    (∀ (c : ℚ) n, 1 ≤ n →
      diffSeries (List.replicate n c) = none :: List.replicate (n - 1) (some 0)) ∧
    (∀ c : ℚ, diffSeries [c] = [none]) := by
  refine ⟨fun ps pv => rfl, ?_, ?_, fun x xs => rfl, ?_, ?_, fun c => rfl⟩
  · intro vt ps pv h
    unfold calculate_deltas
    have hb : (vt == "individual_stocks") = false := by
      simp [h]
    rw [hb]
    simp
  · intro xs
    cases xs with
    | nil => rfl
    | cons x t => simp [diffSeries, diffAux_length]
  · intro xs i a b ha hb
    cases xs with
    | nil => simp at ha
    | cons x t =>
        simp only [diffSeries, List.getElem?_cons_succ]
        exact diffAux_getElem x t i a b ha (by simpa using hb)
  · intro c n hn
    cases n with
    | zero => omega
    | succ m =>
        simp [List.replicate, diffSeries, diffAux_replicate]

/-- Witness for C3 at concrete inputs. -/
theorem C3_witness :
    calculate_deltas "portfolio_total" [] [(1 : ℚ), 3, 6] = Sum.inr (diffSeries [1, 3, 6]) ∧
    (diffSeries [(1 : ℚ), 3, 6])[1]? = some (some 2) ∧
    diffSeries (List.replicate 3 (7 : ℚ)) = none :: List.replicate 2 (some 0) := by
  refine ⟨C3_calculate_deltas.2.1 "portfolio_total" [] [1, 3, 6] (by decide), ?_, ?_⟩
  · have h := C3_calculate_deltas.2.2.2.2.1 [(1 : ℚ), 3, 6] 0 1 3 rfl rfl
    norm_num at h
    exact h
  · exact C3_calculate_deltas.2.2.2.2.2.1 7 3 (by omega)

-- Zero-at-start transform ---------------------------------------------------

/-- Zero-at-start: subtract the first value of the series from every
point (y minus y.iloc[0]). -/
def zeroAtStartTransform (ys : List ℚ) : List ℚ :=
  ys.map fun y => y - ys.headI

/-- The guard under which plot_profitability zeroes a series: only when
zero_at_start is requested and the time period is cumulative. -/
def applyZeroGuard (zero_at_start : Bool) (time_period : String)
    (ys : List ℚ) : List ℚ :=
  if zero_at_start && (time_period == "cumulative") then zeroAtStartTransform ys
  else ys

/-- Differences between consecutive points of a series. -/
def consecDiffs (ys : List ℚ) : List ℚ :=
  List.zipWith (fun a b => a - b) ys.tail ys

lemma zipWith_sub_map_sub (c : ℚ) :
    ∀ l1 l2 : List ℚ,
      List.zipWith (fun a b => a - b) (l1.map (· - c)) (l2.map (· - c)) =
        List.zipWith (fun a b => a - b) l1 l2 := by
  intro l1
  induction l1 with
  | nil => intro l2; simp
  | cons x t ih =>
      intro l2
      cases l2 with
      | nil => simp
      | cons y s =>
          simp only [List.map_cons, List.zipWith_cons_cons, ih]
          congr 1
          ring

/-- C4: zeroing a non-empty cumulative series puts 0 at its first point,
leaves all consecutive differences unchanged, maps [10,15,20] to
[0,5,10], and is applied only when zero_at_start is requested and the
time period is cumulative. -/
theorem C4_zero_at_start :
    (∀ ys : List ℚ, ys ≠ [] → (zeroAtStartTransform ys).head? = some 0) ∧
    (∀ ys : List ℚ, consecDiffs (zeroAtStartTransform ys) = consecDiffs ys) ∧
    (zeroAtStartTransform [10, 15, 20] = [0, 5, 10]) ∧
    (∀ z p ys, ¬(z = true ∧ p = "cumulative") → applyZeroGuard z p ys = ys) ∧
    (∀ ys, applyZeroGuard true "cumulative" ys = zeroAtStartTransform ys) := by
  refine ⟨?_, ?_, ?_, ?_, fun ys => rfl⟩
  · intro ys h
    cases ys with
    | nil => exact absurd rfl h
    | cons y t => simp [zeroAtStartTransform, List.headI]
  · intro ys
    unfold consecDiffs zeroAtStartTransform
    rw [← List.map_tail]
    exact zipWith_sub_map_sub ys.headI ys.tail ys
  · simp [zeroAtStartTransform, List.headI]
    norm_num
  · intro z p ys h
    unfold applyZeroGuard
    cases z with
    | false => simp
    | true =>
        have hp : p ≠ "cumulative" := fun hc => h ⟨rfl, hc⟩
        simp [hp]

/-- Witness for C4 at concrete inputs. -/
theorem C4_witness :
    (zeroAtStartTransform [(3 : ℚ), 4]).head? = some 0 ∧
    applyZeroGuard false "cumulative" [(1 : ℚ)] = [1] ∧
    applyZeroGuard true "daily" [(1 : ℚ)] = [1] := by
  refine ⟨C4_zero_at_start.1 [3, 4] (by simp), ?_, ?_⟩
  · exact C4_zero_at_start.2.2.2.1 false "cumulative" [1] (by simp)
  · exact C4_zero_at_start.2.2.2.1 true "daily" [1] (by simp)

-- Error propagation ---------------------------------------------------------

/-- get_portfolio_data with its data read abstracted: a read failure is
re-raised unchanged (the except block logs and raises); successful
per-stock frames are concatenated. -/
def get_portfolio_data (fetched : Except String (List (List MetricsRow))) :
    Except String (List MetricsRow) :=
  match fetched with
  | Except.error e => Except.error e
  | Except.ok frames => Except.ok frames.flatten

/-- get_active_stocks_for_date_range with its query abstracted: the
except block catches every failure and returns an empty list; on success
rows are kept only when their symbol is in the current portfolio. -/
def get_active_stocks_for_date_range (fetched : Except String (List String))
    (portfolio : List String) : Except String (List String) :=
  match fetched with
  | Except.error _ => Except.ok []
  | Except.ok symbols => Except.ok (symbols.filter fun s => portfolio.contains s)

/-- analyse_portfolio top level: a failure coming out of the pipeline is
turned into a user-facing message; otherwise analysis proceeds on the
data. -/
def analyse_portfolio (fetched : Except String (List (List MetricsRow))) :
    String ⊕ List MetricsRow :=
  match get_portfolio_data fetched with
  | Except.error e => Sum.inl ("Failed to analyse portfolio: " ++ e)
  | Except.ok data => Sum.inr data

/-- C8 counterexample: a failure inside the active-holdings query does
not propagate; the component swallows it and returns an empty list. -/
theorem C8_counterexample :
    get_active_stocks_for_date_range (Except.error "database failure") ["AAPL"] =
      Except.ok [] ∧
    get_active_stocks_for_date_range (Except.error "database failure") ["AAPL"] ≠
      Except.error "database failure" := by
  refine ⟨rfl, ?_⟩
  intro h
  exact Except.noConfusion h

/-- C8 amended: failures in the data fetch of get_portfolio_data
propagate unchanged and only analyse_portfolio converts them into a
user-facing message, but get_active_stocks_for_date_range catches every
failure and returns an empty list instead of propagating it. -/
theorem C8_error_propagation :
    (∀ e, get_portfolio_data (Except.error e) = Except.error e) ∧
    (∀ e, analyse_portfolio (Except.error e) =
      Sum.inl ("Failed to analyse portfolio: " ++ e)) ∧
    (∀ e ps, get_active_stocks_for_date_range (Except.error e) ps = Except.ok []) :=
  ⟨fun _ => rfl, fun _ => rfl, fun _ _ => rfl⟩

-- Statistics dispatch -------------------------------------------------------

/-- The four computation branches shared by the plot dispatcher and the
statistics dispatcher. -/
inductive BranchKind where
  | marketValue
  | profitability
  | dividends
  | distribution
deriving DecidableEq, Repr

/-- Plot dispatch of analyse_portfolio, branching on the lowercase
study types. -/
def analyse_portfolio_plot_dispatch (study_type : String) : BranchKind :=
  if study_type == "market_value" then BranchKind.marketValue
  else if study_type == "profitability" then BranchKind.profitability
  else if study_type == "dividend_performance" then BranchKind.dividends
  else BranchKind.distribution

/-- Statistics dispatch of update_statistics_table, branching on the
capitalized labels. -/
def update_statistics_table_dispatch (study_type : String) : BranchKind :=
  if study_type == "Market Value" then BranchKind.marketValue
  else if study_type == "Profitability" then BranchKind.profitability
  else if study_type == "Dividend Performance" then BranchKind.dividends
  else BranchKind.distribution

/-- C10: for each lowercase study type the plot dispatcher selects the
matching plot, while the statistics dispatcher matches none of its named
branches and falls through to the distribution statistics. -/
theorem C10_stats_dispatch_mismatch :
    update_statistics_table_dispatch "market_value" = BranchKind.distribution ∧
    update_statistics_table_dispatch "profitability" = BranchKind.distribution ∧
    update_statistics_table_dispatch "dividend_performance" = BranchKind.distribution ∧
    analyse_portfolio_plot_dispatch "market_value" = BranchKind.marketValue ∧
    analyse_portfolio_plot_dispatch "profitability" = BranchKind.profitability ∧
    analyse_portfolio_plot_dispatch "dividend_performance" = BranchKind.dividends := by
  decide

-- Field resolution (get_portfolio_data, lines 54-83) ------------------------

/-- The study_type to database-columns mapping of get_portfolio_data. -/
def study_type_mapping (study_type : String) : Option (List String) :=
  if study_type == "market_value" then some ["market_value"]
  else if study_type == "profitability" then
    some ["total_return", "market_value", "daily_pl", "daily_pl_pct",
          "total_return_pct", "cumulative_return_pct"]
  else if study_type == "dividend_performance" then
    some ["cash_dividend", "cash_dividends_total", "drp_share",
          "drp_shares_total", "close_price"]
  else none

/-- The field list before deduplication: date, then market_value, then
the study-type columns, then the optional metric and metrics params. -/
def rawFields (study_type : String) (metric : Option (List String))
    (metrics : Option (List String)) : List String :=
  ["date", "market_value"] ++ (study_type_mapping study_type).getD [] ++
    metric.getD [] ++ metrics.getD []

/-- Field resolution of get_portfolio_data: collect the fields in order
and deduplicate keeping the first occurrence (dict.fromkeys). -/
def resolve_fields (study_type : String) (metric : Option (List String))
    (metrics : Option (List String)) : List String :=
  dedupFirstAux [] (rawFields study_type metric metrics)

lemma dedupFirstAux_mem : ∀ (xs seen : List String) (x : String),
    x ∈ dedupFirstAux seen xs ↔ x ∈ xs ∧ x ∉ seen := by
  intro xs
  induction xs with
  | nil => intro seen x; simp [dedupFirstAux]
  | cons y ys ih =>
      intro seen x
      simp only [dedupFirstAux]
      by_cases hy : y ∈ seen
      · simp only [if_pos hy]
        rw [ih]
        constructor
        · rintro ⟨h1, h2⟩; exact ⟨List.mem_cons_of_mem _ h1, h2⟩
        · rintro ⟨h1, h2⟩
          rcases List.mem_cons.mp h1 with h3 | h3
          · rw [h3] at h2; exact absurd hy h2
          · exact ⟨h3, h2⟩
      · simp only [if_neg hy]
        constructor
        · intro h
          rcases List.mem_cons.mp h with h3 | h3
          · rw [h3]; exact ⟨List.mem_cons_self _ _, hy⟩
          · rw [ih] at h3
            rcases h3 with ⟨h4, h5⟩
            have h6 : x ∉ seen := fun hc => h5 (List.mem_cons_of_mem _ hc)
            exact ⟨List.mem_cons_of_mem _ h4, h6⟩
        · rintro ⟨h1, h2⟩
          rcases List.mem_cons.mp h1 with h3 | h3
          · rw [h3]; exact List.mem_cons_self _ _
          · by_cases hxy : x = y
            · rw [hxy]; exact List.mem_cons_self _ _
            · apply List.mem_cons_of_mem
              rw [ih]
              refine ⟨h3, fun hc => ?_⟩
              rcases List.mem_cons.mp hc with h4 | h4
              · exact hxy h4
              · exact h2 h4

lemma dedupFirstAux_nodup : ∀ (xs seen : List String),
    (dedupFirstAux seen xs).Nodup := by
  intro xs
  induction xs with
  | nil => intro seen; simp [dedupFirstAux]
  | cons y ys ih =>
      intro seen
      simp only [dedupFirstAux]
      by_cases hy : y ∈ seen
      · simp only [if_pos hy]; exact ih seen
      · simp only [if_neg hy]
        refine List.nodup_cons.mpr ⟨?_, ih _⟩
        intro hc
        rw [dedupFirstAux_mem] at hc
        exact hc.2 (List.mem_cons_self _ _)

lemma dedupFirstAux_sublist : ∀ (xs seen : List String),
    (dedupFirstAux seen xs).Sublist xs := by
  intro xs
  induction xs with
  | nil => intro seen; simp [dedupFirstAux]
  | cons y ys ih =>
      intro seen
      simp only [dedupFirstAux]
      by_cases hy : y ∈ seen
      · simp only [if_pos hy]; exact (ih seen).cons _
      · simp only [if_neg hy]; exact (ih _).cons₂ _

/-- C6: for every study type (recognized or not) and every optional
metric and metrics input, the resolved field list starts with date then
market_value, has no duplicates, is a sublist of the collected fields in
first-seen order, contains exactly the collected fields, and for an
unrecognized study type with no extra metrics it is exactly
[date, market_value], with no failure possible. -/
theorem C6_resolve_fields :
    (∀ st m ms, (resolve_fields st m ms).take 2 = ["date", "market_value"]) ∧
    (∀ st m ms, (resolve_fields st m ms).Nodup) ∧
    (∀ st m ms, (resolve_fields st m ms).Sublist (rawFields st m ms)) ∧
    (∀ st m ms x, x ∈ resolve_fields st m ms ↔ x ∈ rawFields st m ms) ∧
    (∀ st, study_type_mapping st = none →
      resolve_fields st none none = ["date", "market_value"]) := by
  refine ⟨?_, ?_, ?_, ?_, ?_⟩
  · intro st m ms
    show (dedupFirstAux [] ("date" :: "market_value" :: _)).take 2 = _
    simp [dedupFirstAux]
  · intro st m ms
    exact dedupFirstAux_nodup _ _
  · intro st m ms
    exact dedupFirstAux_sublist _ _
  · intro st m ms x
    rw [resolve_fields, dedupFirstAux_mem]
    simp
  · intro st h
    simp [resolve_fields, rawFields, h, dedupFirstAux]

/-- Witness for C6 at a concrete unrecognized study type. -/
theorem C6_witness :
    resolve_fields "unknown_study" none none = ["date", "market_value"] :=
  C6_resolve_fields.2.2.2.2 "unknown_study" (by decide)

-- Percentage portfolio total (plot_profitability) ---------------------------

lemma lookupCol_getD_eq_filter_sum (col : MetricsRow → ℚ) :
    ∀ (f : List MetricsRow), nodupKeys f → ∀ (d : Nat) (s : String),
      (lookupCol col f d s).getD 0 =
        ((f.filter fun r => r.date == d && r.stock == s).map col).sum := by
  intro f
  induction f with
  | nil => intro h d s; simp [lookupCol]
  | cons r t ih =>
      intro h d s
      have hkey : (r.date, r.stock) ∉ t.map fun x => (x.date, x.stock) :=
        (List.nodup_cons.mp h).1
      have ht : nodupKeys t := (List.nodup_cons.mp h).2
      by_cases hm : (r.date == d && r.stock == s) = true
      · have hds : r.date = d ∧ r.stock = s := by simpa using hm
        have hnone : t.filter (fun x => x.date == d && x.stock == s) = [] := by
          apply List.filter_eq_nil_iff.mpr
          intro x hx hc
          have hxc : x.date = d ∧ x.stock = s := by simpa using hc
          apply hkey
          have : (x.date, x.stock) = (r.date, r.stock) := by
            rw [hxc.1, hxc.2, hds.1, hds.2]
          rw [← this]
          exact List.mem_map_of_mem _ hx
        simp [lookupCol, List.find?_cons, List.filter_cons, hm, hnone]
      · have hm2 : (r.date == d && r.stock == s) = false := by
          revert hm; cases (r.date == d && r.stock == s) <;> simp
        have hrec := ih ht d s
        rw [lookupCol] at hrec
        simp only [lookupCol, List.find?_cons, List.filter_cons, hm2, if_false]
        simpa using hrec

lemma sum_filter_or_disjoint (g : MetricsRow → ℚ) (p q : MetricsRow → Bool) :
    ∀ l : List MetricsRow, (∀ x ∈ l, ¬(p x = true ∧ q x = true)) →
      ((l.filter fun x => p x || q x).map g).sum =
        ((l.filter p).map g).sum + ((l.filter q).map g).sum := by
  intro l
  induction l with
  | nil => intro h; simp
  | cons x t ih =>
      intro h
      have hx := h x (List.mem_cons_self _ _)
      have ht : ∀ y ∈ t, ¬(p y = true ∧ q y = true) :=
        fun y hy => h y (List.mem_cons_of_mem _ hy)
      cases hp : p x with
      | true =>
          cases hq : q x with
          | true => exact absurd ⟨hp, hq⟩ hx
          | false =>
              simp [List.filter_cons, hp, hq, ih ht]
              ring
      | false =>
          cases hq : q x with
          | true =>
              simp [List.filter_cons, hp, hq, ih ht]
              ring
          | false =>
              simp [List.filter_cons, hp, hq, ih ht]

lemma sum_over_stock_list (col : MetricsRow → ℚ) (f : List MetricsRow) (d : Nat) :
    ∀ ss : List String, ss.Nodup →
      (ss.map fun s =>
          ((f.filter fun r => r.date == d && r.stock == s).map col).sum).sum =
        ((f.filter fun r => r.date == d && decide (r.stock ∈ ss)).map col).sum := by
  intro ss
  induction ss with
  | nil =>
      intro _
      simp
  | cons s t ih =>
      intro hnd
      have hs : s ∉ t := (List.nodup_cons.mp hnd).1
      have ht : t.Nodup := (List.nodup_cons.mp hnd).2
      have hpred : (f.filter fun r => r.date == d && decide (r.stock ∈ s :: t)) =
          f.filter fun r =>
            (r.date == d && r.stock == s) || (r.date == d && decide (r.stock ∈ t)) := by
        apply List.filter_congr
        intro r _
        by_cases h1 : r.stock = s <;> by_cases h2 : r.stock ∈ t <;>
          simp [h1, h2, List.mem_cons] <;> tauto
      have hdisj : ∀ x ∈ f, ¬((x.date == d && x.stock == s) = true ∧
          (x.date == d && decide (x.stock ∈ t)) = true) := by
        intro x _ hc
        rcases hc with ⟨hc1, hc2⟩
        simp at hc1 hc2
        exact hs (hc1.2 ▸ hc2.2)
      rw [List.map_cons, List.sum_cons, hpred,
          sum_filter_or_disjoint col _ _ f hdisj, ih ht]

lemma sumRowsAt_eq_sumStocksAt (col : MetricsRow → ℚ) (f : List MetricsRow)
    (d : Nat) (h : nodupKeys f) : sumRowsAt col f d = sumStocksAt col f d := by
  have hfun : (fun s => (lookupCol col f d s).getD 0) =
      fun s => ((f.filter fun r => r.date == d && r.stock == s).map col).sum :=
    funext fun s => lookupCol_getD_eq_filter_sum col f h d s
  rw [sumStocksAt, hfun,
      sum_over_stock_list col f d (stocksOf f) (dedupFirstAux_nodup _ _)]
  rw [sumRowsAt]
  have hfil : (f.filter fun r => r.date == d && decide (r.stock ∈ stocksOf f)) =
      f.filter fun r => r.date == d := by
    apply List.filter_congr
    intro r hr
    have hmem : r.stock ∈ stocksOf f := by
      rw [stocksOf, dedupFirstAux_mem]
      exact ⟨List.mem_map_of_mem _ hr, List.not_mem_nil _⟩
    simp [hmem]
  rw [hfil]

/-- Daily percentage portfolio total of plot_profitability: groupby-date
sums of daily_pl and market_value, then the ratio times 100. -/
def plot_profitability_daily_pct (f : List MetricsRow) (d : Nat) : ℚ :=
  sumRowsAt MetricsRow.daily_pl f d / sumRowsAt MetricsRow.market_value f d * 100

/-- Cumulative percentage portfolio total of plot_profitability: both
total_return and market_value are unstacked, forward-filled and summed
across stocks, then the ratio times 100. -/
def plot_profitability_cumulative_pct (f : List MetricsRow) (d : Nat) : ℚ :=
  sumFfillAt MetricsRow.total_return f d / sumFfillAt MetricsRow.market_value f d * 100

/-- Two-stock frame showing the value weighting: A has value 100 and
daily profit 10 (10 percent), B has value 300 and daily profit 3
(1 percent). -/
def exFrameC2 : List MetricsRow :=
  [ { date := 0, stock := "A", market_value := 100, daily_pl := 10, daily_pl_pct := 10 },
    { date := 0, stock := "B", market_value := 300, daily_pl := 3, daily_pl_pct := 1 } ]

/-- C2: with unique (date, stock) keys and positive total market value,
the daily percentage portfolio total equals the sum over stocks of
daily_pl divided by the sum over stocks of market_value times 100; the
cumulative variant equals the same formula on the forward-filled
total_return and market_value columns; on the concrete two-stock frame
the value-weighted result 13/4 differs from both the sum (11) and the
average (11/2) of the per-stock percentage column. -/
theorem C2_percentage_portfolio_total :
    (∀ f d, nodupKeys f → 0 < sumRowsAt MetricsRow.market_value f d →
      plot_profitability_daily_pct f d =
        sumStocksAt MetricsRow.daily_pl f d /
          sumStocksAt MetricsRow.market_value f d * 100) ∧
    (∀ f d, plot_profitability_cumulative_pct f d =
      sumFfillAt MetricsRow.total_return f d /
        sumFfillAt MetricsRow.market_value f d * 100) ∧
    (plot_profitability_daily_pct exFrameC2 0 = 13 / 4 ∧
      sumRowsAt MetricsRow.daily_pl_pct exFrameC2 0 = 11 ∧
      plot_profitability_daily_pct exFrameC2 0 ≠ 11 ∧
      plot_profitability_daily_pct exFrameC2 0 ≠ 11 / 2) := by
  refine ⟨?_, fun f d => rfl, ?_, ?_, ?_, ?_⟩
  · intro f d h _
    rw [plot_profitability_daily_pct, sumRowsAt_eq_sumStocksAt _ _ _ h,
        sumRowsAt_eq_sumStocksAt _ _ _ h]
  · simp [plot_profitability_daily_pct, sumRowsAt, exFrameC2]
    norm_num
  · simp [sumRowsAt, exFrameC2]
    norm_num
  · simp [plot_profitability_daily_pct, sumRowsAt, exFrameC2]
    norm_num
  · simp [plot_profitability_daily_pct, sumRowsAt, exFrameC2]
    norm_num

/-- Witness for C2 on the concrete two-stock frame. -/
theorem C2_witness :
    plot_profitability_daily_pct exFrameC2 0 =
      sumStocksAt MetricsRow.daily_pl exFrameC2 0 /
        sumStocksAt MetricsRow.market_value exFrameC2 0 * 100 :=
  C2_percentage_portfolio_total.1 exFrameC2 0 (by simp [nodupKeys, exFrameC2])
    (by simp [sumRowsAt, exFrameC2]; norm_num)

-- Dividend combination (plot_dividends) -------------------------------------

/-- DRP dollar value per row: drp_share times close_price. -/
def drp_value (r : MetricsRow) : ℚ := r.drp_share * r.close_price

/-- Cumulative DRP dollar value per row: drp_shares_total times the
current close_price. -/
def drp_value_total (r : MetricsRow) : ℚ := r.drp_shares_total * r.close_price

/-- Cash cell of the dividend view: cumulative total or period cash
dividend, depending on time_period. -/
def cashCell (time_period : String) (f : List MetricsRow) (d : Nat) (s : String) :
    Option ℚ :=
  if time_period == "cumulative" then lookupCol MetricsRow.cash_dividends_total f d s
  else lookupCol MetricsRow.cash_dividend f d s

/-- DRP dollar cell of the dividend view. -/
def drpCell (time_period : String) (f : List MetricsRow) (d : Nat) (s : String) :
    Option ℚ :=
  if time_period == "cumulative" then lookupCol drp_value_total f d s
  else lookupCol drp_value f d s

/-- Combined dividend cell of plot_dividends: cash with missing treated
as zero plus DRP dollars with missing treated as zero. -/
def combinedDividendCell (time_period : String) (f : List MetricsRow) (d : Nat)
    (s : String) : ℚ :=
  (cashCell time_period f d s).getD 0 + (drpCell time_period f d s).getD 0

/-- Frame of the dividend scenario: one stock with cash dividends
[5,0,5] and DRP dollar values [0,2,0] over three days. -/
def exFrameC5 : List MetricsRow :=
  [ { date := 0, stock := "S", cash_dividend := 5, drp_share := 0, close_price := 1 },
    { date := 1, stock := "S", cash_dividend := 0, drp_share := 1, close_price := 2 },
    { date := 2, stock := "S", cash_dividend := 5, drp_share := 0, close_price := 1 } ]

/-- C5: the DRP dollar value of a row is drp_share times close_price in
period view and drp_shares_total times close_price in cumulative view;
for every date present in either series the combined dividend value is
the cash value (missing as zero) plus the DRP dollar value (missing as
zero); cash [5,0,5] combined with DRP dollars [0,2,0] gives [5,2,5]. -/
theorem C5_dividend_combination :
    (∀ r, drp_value r = r.drp_share * r.close_price) ∧
    (∀ r, drp_value_total r = r.drp_shares_total * r.close_price) ∧
    (∀ p f d s, (cashCell p f d s ≠ none ∨ drpCell p f d s ≠ none) →
      combinedDividendCell p f d s =
        (cashCell p f d s).getD 0 + (drpCell p f d s).getD 0) ∧
    (combinedDividendCell "daily" exFrameC5 0 "S" = 5 ∧
      combinedDividendCell "daily" exFrameC5 1 "S" = 2 ∧
      combinedDividendCell "daily" exFrameC5 2 "S" = 5) := by
  refine ⟨fun r => rfl, fun r => rfl, fun p f d s _ => rfl, ?_, ?_, ?_⟩
  · simp [combinedDividendCell, cashCell, drpCell, lookupCol, drp_value,
      exFrameC5, List.find?]
  · simp [combinedDividendCell, cashCell, drpCell, lookupCol, drp_value,
      exFrameC5, List.find?]
  · simp [combinedDividendCell, cashCell, drpCell, lookupCol, drp_value,
      exFrameC5, List.find?]

/-- Witness for C5 at a concrete cell where the cash series is present. -/
theorem C5_witness :
    combinedDividendCell "daily" exFrameC5 1 "S" =
      (cashCell "daily" exFrameC5 1 "S").getD 0 +
        (drpCell "daily" exFrameC5 1 "S").getD 0 :=
  C5_dividend_combination.2.2.1 "daily" exFrameC5 1 "S"
    (Or.inl (by simp [cashCell, lookupCol, exFrameC5, List.find?]))

-- Portfolio-total profitability in dollar mode (plot_profitability) ---------

/-- Series the claim expects in daily dollar mode: the per-date direct
sum across stocks of daily_pl (phrased from the claim, for comparison
with the code). -/
def claimedDailyDollarSeries (f : List MetricsRow) : List ℚ :=
  (datesOf f).map fun d => sumRowsAt MetricsRow.daily_pl f d

/-- Portfolio-total branch of plot_profitability: the cumulative dollar
branch unstacks total_return, forward-fills, sums across stocks and
optionally zeroes at start; the percentage branch computes the
value-weighted percentage series; any other combination (in particular
daily dollar value) matches neither branch and produces no series. -/
def plot_profitability_portfolio_series (time_period chart_type : String)
    (zero_at_start : Bool) (f : List MetricsRow) : Option (List ℚ) :=
  if time_period == "cumulative" && chart_type == "dollar_value" then
    some (if zero_at_start then
        zeroAtStartTransform
          ((alignDates f).map fun d => sumFfillAt MetricsRow.total_return f d)
      else (alignDates f).map fun d => sumFfillAt MetricsRow.total_return f d)
  else if chart_type == "percentage" then
    some (applyZeroGuard zero_at_start time_period
      (if time_period == "daily" then
        (datesOf f).map fun d => plot_profitability_daily_pct f d
      else (alignDates f).map fun d => plot_profitability_cumulative_pct f d))
  else none

/-- calculate_portfolio_total_metrics: the dollar branch is a plain
groupby-date sum of total_return; the percentage branch divides grouped
total_return by grouped market_value and scales by 100. -/
def calculate_portfolio_total_metrics (chart_type : String) (f : List MetricsRow) :
    List (Nat × ℚ) :=
  if chart_type == "dollar_value" then
    (datesOf f).map fun d => (d, sumRowsAt MetricsRow.total_return f d)
  else
    (datesOf f).map fun d =>
      (d, sumRowsAt MetricsRow.total_return f d /
            sumRowsAt MetricsRow.market_value f d * 100)

/-- C7 counterexample: in daily dollar-value mode the portfolio-total
branch of plot_profitability computes no series at all, so it is not the
claimed per-date sum of daily_pl. -/
theorem C7_counterexample :
    plot_profitability_portfolio_series "daily" "dollar_value" false exFrameC2 = none ∧
    plot_profitability_portfolio_series "daily" "dollar_value" false exFrameC2 ≠
      some (claimedDailyDollarSeries exFrameC2) := by
  have h0 : plot_profitability_portfolio_series "daily" "dollar_value" false exFrameC2 =
      none := rfl
  exact ⟨h0, by rw [h0]; intro h; exact Option.noConfusion h⟩

/-- C7 amended: in the portfolio-total dollar-value view only the
cumulative mode computes a series, the per-date sum across stocks of
forward-filled total_return with no value weighting; daily dollar mode
matches no branch and computes nothing; calculate_portfolio_total_metrics
likewise sums total_return without weighting in dollar mode. -/
theorem C7_profitability_dollar_total :
    (∀ f z, plot_profitability_portfolio_series "cumulative" "dollar_value" z f =
      some (if z then
          zeroAtStartTransform
            ((alignDates f).map fun d => sumFfillAt MetricsRow.total_return f d)
        else (alignDates f).map fun d => sumFfillAt MetricsRow.total_return f d)) ∧
    (∀ f z, plot_profitability_portfolio_series "daily" "dollar_value" z f = none) ∧
    (∀ f, calculate_portfolio_total_metrics "dollar_value" f =
      (datesOf f).map fun d => (d, sumRowsAt MetricsRow.total_return f d)) :=
  ⟨fun _ _ => rfl, fun _ _ => rfl, fun _ => rfl⟩

-- Dividend-performance statistics (update_statistics_table) -----------------

/-- Cumulative-total column selected by the dividend statistics branch. -/
def dividendTotalCol (view_type : String) : MetricsRow → ℚ :=
  if view_type == "Cash Dividends" then MetricsRow.cash_dividends_total
  else MetricsRow.drp_shares_total

/-- Period column selected by the dividend statistics branch. -/
def dividendPeriodCol (view_type : String) : MetricsRow → ℚ :=
  if view_type == "Cash Dividends" then MetricsRow.cash_dividend
  else MetricsRow.drp_share

/-- The Total Received statistic: max of the cumulative-total column. -/
def dividendTotalReceived (view_type : String) (f : List MetricsRow) : Option ℚ :=
  (f.map (dividendTotalCol view_type)).max?

/-- The Number of Payments statistic: count of rows whose period column
is strictly positive. -/
def dividendNumPayments (view_type : String) (f : List MetricsRow) : Nat :=
  (f.filter fun r => 0 < dividendPeriodCol view_type r).length

lemma max?_eq_getLast?_of_chain :
    ∀ (t : List ℚ) (a : ℚ), List.Chain' (· ≤ ·) (a :: t) →
      (a :: t).max? = (a :: t).getLast? := by
  intro t
  induction t with
  | nil => intro a _; rfl
  | cons b s ih =>
      intro a h
      have hab : a ≤ b := (List.chain'_cons.mp h).1
      have h2 : List.Chain' (· ≤ ·) (b :: s) := (List.chain'_cons.mp h).2
      have hrec := ih b h2
      rw [List.getLast?_cons_cons, ← hrec]
      show some (List.foldl max a (b :: s)) = some (List.foldl max b s)
      rw [List.foldl_cons, max_eq_right hab]

/-- C9: when the selected cumulative-total column is monotone
non-decreasing over the frame's rows, the Total Received statistic is
the maximum of that column and equals its final value; the Number of
Payments statistic counts the rows with a strictly positive period
column. -/
theorem C9_dividend_statistics :
    ∀ view f, List.Chain' (· ≤ ·) (f.map (dividendTotalCol view)) →
      dividendTotalReceived view f = (f.map (dividendTotalCol view)).max? ∧
      dividendTotalReceived view f = (f.map (dividendTotalCol view)).getLast? ∧
      dividendNumPayments view f =
        (f.filter fun r => 0 < dividendPeriodCol view r).length := by
  intro view f h
  refine ⟨rfl, ?_, rfl⟩
  rw [dividendTotalReceived]
  cases hm : f.map (dividendTotalCol view) with
  | nil => rfl
  | cons a t =>
      rw [hm] at h
      exact max?_eq_getLast?_of_chain t a h

/-- Frame of the dividend-statistics witness: one stock with cash
dividends [5,0,5] and running totals [5,5,10]. -/
def exFrameC9 : List MetricsRow :=
  [ { date := 0, stock := "S", cash_dividend := 5, cash_dividends_total := 5 },
    { date := 1, stock := "S", cash_dividend := 0, cash_dividends_total := 5 },
    { date := 2, stock := "S", cash_dividend := 5, cash_dividends_total := 10 } ]

/-- Witness for C9 on the concrete running-total frame. -/
theorem C9_witness :
    dividendTotalReceived "Cash Dividends" exFrameC9 =
      (exFrameC9.map (dividendTotalCol "Cash Dividends")).getLast? :=
  (C9_dividend_statistics "Cash Dividends" exFrameC9
    (by simp [dividendTotalCol, exFrameC9]; norm_num)).2.1
